import Mathlib

/-!
Verification of the METAR decoder in src/app.py (class METARDecoder).

Tokens are modelled as `List Char`; a Python string is embedded through
`String.toList`.  Fallible Python code (an `int()` / `float()` call that can
raise ValueError) is modelled with `Except Unit`; an uncaught exception
escaping `decode_metar` is the `MetarOut.error` value.  `round` in the source
is Python 3 round-half-to-even; it is modelled exactly on integers by
`roundDiv`, which is faithful because every call site divides by an odd
number (45 or 5), so a tie (an exact half) can never occur, and on the
magnitudes involved (3-digit wind directions, 2-digit temperatures, and in
general any |value| up to 2^51) the binary64 float evaluation in Python is
exact enough that it agrees with exact rational rounding.  Beyond that
range the int-to-float conversion itself diverges: see
`pyIntToFloatOverflows` for the OverflowError bound.
-/

namespace MetarSpec

deriving instance DecidableEq for Except

/-- The whitespace characters Python's `str.split()` strips (ASCII range). -/
def pyIsSpace (c : Char) : Bool :=
  c = ' ' || c = '\t' || c = '\n' || c = '\r' || c = '\x0b' || c = '\x0c'

def splitWSAux : List Char → List Char → List (List Char)
  | [], acc => if acc = [] then [] else [acc.reverse]
  | c :: cs, acc =>
    if pyIsSpace c then
      if acc = [] then splitWSAux cs [] else acc.reverse :: splitWSAux cs []
    else splitWSAux cs (c :: acc)

/-- Python `str.split()` with no argument: split on runs of whitespace,
dropping empty pieces. -/
def pySplit (cs : List Char) : List (List Char) := splitWSAux cs []

/-- Python `str.startswith` on character lists. -/
def listStartsWith : List Char → List Char → Bool
  | [], _ => true
  | _ :: _, [] => false
  | p :: ps, c :: cs => p = c && listStartsWith ps cs

/-- Python `pat in s` (substring containment) on character lists. -/
def containsSub (pat : List Char) : List Char → Bool
  | [] => pat.isEmpty
  | c :: cs => listStartsWith pat (c :: cs) || containsSub pat cs

/-- Python `s.endswith("SM")`: the reversed string starts with `MS`. -/
def endsSM (cs : List Char) : Bool := listStartsWith ['M', 'S'] cs.reverse

/-- Numeric value of an ASCII digit character. -/
def dv (c : Char) : Nat := c.toNat - 48

/-- Base-10 value of a list of ASCII digit characters. -/
def digitsVal (l : List Char) : Nat := l.foldl (fun a c => a * 10 + dv c) 0

def headDigit : List Char → Bool
  | [] => false
  | c :: _ => c.isDigit

/-- No two consecutive underscores. -/
def noDoubleUnd : List Char → Bool
  | [] => true
  | [_] => true
  | a :: b :: rest => !(a = '_' && b = '_') && noDoubleUnd (b :: rest)

/-- The digit-run grammar of Python `int()` after the optional sign:
`digit (["_"] digit)*`, i.e. non-empty, first and last characters are digits,
every character is a digit or `_`, and no `__` occurs; its value reads the
digits in base 10, ignoring the underscores. -/
def digitsUnd (l : List Char) : Option Nat :=
  if headDigit l && headDigit l.reverse && l.all (fun c => c.isDigit || c = '_') &&
      noDoubleUnd l
  then some (digitsVal (l.filter Char.isDigit)) else none

/-- Strip leading and trailing whitespace, as Python `int()` does. -/
def stripWS (cs : List Char) : List Char :=
  ((cs.dropWhile pyIsSpace).reverse.dropWhile pyIsSpace).reverse

def pyIntSigned (l : List Char) : Option Int :=
  match l with
  | [] => none
  | c :: rest =>
    if c = '+' then (digitsUnd rest).map (fun v : Nat => (v : Int))
    else if c = '-' then (digitsUnd rest).map (fun v : Nat => -(v : Int))
    else (digitsUnd (c :: rest)).map (fun v : Nat => (v : Int))

/-- Python `int(s)`: strip whitespace, optional sign, then an ASCII digit run
with single underscores between digits; `none` models a raised ValueError. -/
def pyInt? (cs : List Char) : Option Int := pyIntSigned (stripWS cs)

/-- Python 3 `round(num / den)` for `den > 0`, computed exactly on integers:
nearest integer, ties going to the even neighbour (banker's rounding). -/
def roundDiv (num den : Int) : Int :=
  if 2 * (num % den) < den then num / den
  else if den < 2 * (num % den) then num / den + 1
  else if (num / den) % 2 = 0 then num / den else num / den + 1

/-- The `self.wind_directions` mapping built in `METARDecoder.__init__`. -/
def wind_directions : List (String × String) :=
  [("N", "north"), ("NNE", "north-northeast"), ("NE", "northeast"), ("ENE", "east-northeast"),
   ("E", "east"), ("ESE", "east-southeast"), ("SE", "southeast"), ("SSE", "south-southeast"),
   ("S", "south"), ("SSW", "south-southwest"), ("SW", "southwest"), ("WSW", "west-southwest"),
   ("W", "west"), ("WNW", "west-northwest"), ("NW", "northwest"), ("NNW", "north-northwest")]

/-- Python dict lookup on the association list (the looked-up key always comes
from `dirAbbrevs`, so the `""` default of a missing key is never reached). -/
def lookupAssoc : List (String × String) → String → String
  | [], _ => ""
  | (k, v) :: rest, s => if k = s then v else lookupAssoc rest s

/-- The local `directions` list of 16 abbreviations in
`get_wind_direction_text`. -/
def dirAbbrevs : List String :=
  ["N", "NNE", "NE", "ENE", "E", "ESE", "SE", "SSE",
   "S", "SSW", "SW", "WSW", "W", "WNW", "NW", "NNW"]

/-- `get_wind_direction_text` from src/app.py.  `round(degrees / 22.5) % 16`
is modelled as `roundDiv (2 * degrees) 45 % 16`, which is exactly what
CPython computes for |degrees| ≤ 2^51: there the int-to-float conversion is
exact, the correctly-rounded binary64 quotient is within 2^-7 of the exact
rational `2 * degrees / 45`, and every rounding boundary (a half-integer)
is at distance at least 1/90 from that rational, so the rounded results
coincide (and no tie occurs).  The decoder itself only ever passes 3-digit
directions (0-999).  Outside that range this model diverges from CPython:
`degrees / 22.5` raises OverflowError once |degrees| reaches the
`pyIntToFloatOverflows` bound, and between 2^51 and that bound the float
quotient may round across a sector boundary.  The index is always in
`[0, 16)`, so the list default `"N"` is never used, mirroring the Python
list indexing that cannot go out of range here. -/
def get_wind_direction_text (degrees : Int) : String :=
  if degrees = 0 ∨ degrees = 360 then "north"
  else lookupAssoc wind_directions (dirAbbrevs.getD (roundDiv (2 * degrees) 45 % 16).toNat "N")

/-- The overflow guard of the int-to-float conversion that
`degrees / 22.5` performs inside `get_wind_direction_text` (CPython's
PyLong_AsDouble): the integer is rounded to nearest-even binary64, and
OverflowError is raised exactly when the rounded magnitude reaches 2^1024,
i.e. when |degrees| ≥ 2^1024 - 2^970 (the largest finite double is
2^1024 - 2^971, and magnitudes from the halfway point 2^1024 - 2^970
upward round to 2^1024).  Where this holds, the source raises instead of
returning a compass name. -/
def pyIntToFloatOverflows (degrees : Int) : Bool :=
  2 ^ 1024 - 2 ^ 970 ≤ |degrees|

/-- Python `vis_str.replace("SM", "")`: remove all non-overlapping
occurrences, left to right. -/
def replaceSM : List Char → List Char
  | [] => []
  | [c] => [c]
  | a :: b :: rest =>
    if a = 'S' ∧ b = 'M' then replaceSM rest else a :: replaceSM (b :: rest)

/-- `decode_visibility` from src/app.py; `.error ()` models the uncaught
ValueError raised by `int(miles)` on a non-numeric miles string. -/
def decode_visibility (cs : List Char) : Except Unit String :=
  if cs = ['1', '0', 'S', 'M'] ∨ endsSM cs then
    let miles := replaceSM cs
    if miles = ['1', '0'] then .ok "10+ miles visibility"
    else
      match pyInt? miles with
      | some n =>
        if 10 ≤ n then .ok "10+ miles visibility"
        else .ok (String.mk miles ++ " miles visibility")
      | none => .error ()
  else .ok "visibility not reported"

/-- `re.search(r'(\d{3})', s)`: value of the leftmost run of three
consecutive ASCII digits, if any. -/
def searchD3 : List Char → Option Nat
  | a :: b :: c :: rest =>
    if a.isDigit && b.isDigit && c.isDigit then some (100 * dv a + 10 * dv b + dv c)
    else searchD3 (b :: c :: rest)
  | _ => none

/-- The `cloud_types` dict of `decode_clouds`, as an ordered list. -/
def cloud_types : List (List Char × String) :=
  [(['C', 'L', 'R'], "clear skies"), (['S', 'K', 'C'], "sky clear"),
   (['F', 'E', 'W'], "few clouds"), (['S', 'C', 'T'], "scattered clouds"),
   (['B', 'K', 'N'], "broken clouds"), (['O', 'V', 'C'], "overcast")]

def decodeCloudsGo (cs : List Char) : List (List Char × String) → String
  | [] => "cloud conditions not reported"
  | (code, desc) :: rest =>
    if listStartsWith code cs then
      if code = ['C', 'L', 'R'] ∨ code = ['S', 'K', 'C'] then desc
      else
        match searchD3 cs with
        | some alt => desc ++ " at " ++ Nat.repr (alt * 100) ++ " feet"
        | none => desc
    else decodeCloudsGo cs rest

/-- `decode_clouds` from src/app.py. -/
def decode_clouds (cs : List Char) : String := decodeCloudsGo cs cloud_types

/-- The `phenomena` dict of `decode_weather_phenomena`, as an ordered list. -/
def wxCodes : List (List Char × String) :=
  [(['R', 'A'], "rain"), (['S', 'N'], "snow"), (['D', 'Z'], "drizzle"), (['F', 'G'], "fog"),
   (['B', 'R'], "mist"), (['H', 'Z'], "haze"), (['T', 'S'], "thunderstorm"),
   (['S', 'H'], "showers")]

/-- The intensity text computed (identically on every loop iteration) inside
`decode_weather_phenomena`. -/
def wxIntensity (wx : List Char) : String :=
  if listStartsWith ['-'] wx then "light "
  else if listStartsWith ['+'] wx then "heavy "
  else if listStartsWith ['V', 'C'] wx then "nearby "
  else ""

/-- `decode_weather_phenomena` from src/app.py. -/
def decode_weather_phenomena (wx : List Char) : Option String :=
  let result := wxCodes.foldl
    (fun acc p => if containsSub p.1 wx then acc ++ [wxIntensity wx ++ p.2] else acc) []
  if result = [] then none else some (String.intercalate ", " result)

/-- `celsius_to_fahrenheit` from src/app.py: `round((celsius * 9/5) + 32)`;
`celsius * 9 / 5 + 32` equals the exact rational `(9 * celsius + 160) / 5`,
and no tie is possible for integral celsius. -/
def celsius_to_fahrenheit (celsius : Int) : Int := roundDiv (9 * celsius + 160) 5

/-- The `decoded` dict of `decode_metar`, field order as in the source. -/
structure Decoded where
  station : String
  time : String
  wind : String
  visibility : String
  weather : String
  clouds : String
  temperature : String
  dewpoint : String
  pressure : String
  deriving DecidableEq

/-- All fields initialised to the empty string, as in `decode_metar`. -/
def emptyDecoded : Decoded :=
  { station := "", time := "", wind := "", visibility := "", weather := "",
    clouds := "", temperature := "", dewpoint := "", pressure := "" }

/-- Names of the record fields, for stating generic per-field properties. -/
inductive Fld where
  | station | time | wind | visibility | weather | clouds | temperature | dewpoint | pressure
  deriving DecidableEq

def fieldGet (d : Decoded) : Fld → String
  | .station => d.station
  | .time => d.time
  | .wind => d.wind
  | .visibility => d.visibility
  | .weather => d.weather
  | .clouds => d.clouds
  | .temperature => d.temperature
  | .dewpoint => d.dewpoint
  | .pressure => d.pressure

def setF (d : Decoded) : Fld → String → Decoded
  | .station, v => { d with station := v }
  | .time, v => { d with time := v }
  | .wind, v => { d with wind := v }
  | .visibility, v => { d with visibility := v }
  | .weather, v => { d with weather := v }
  | .clouds, v => { d with clouds := v }
  | .temperature, v => { d with temperature := v }
  | .dewpoint, v => { d with dewpoint := v }
  | .pressure, v => { d with pressure := v }

/-- `re.match(r'\d{6}Z', part)`: an unanchored-at-the-end prefix match. -/
def matchTimeTok : List Char → Bool
  | a :: b :: c :: d :: e :: f :: 'Z' :: _ =>
    a.isDigit && b.isDigit && c.isDigit && d.isDigit && e.isDigit && f.isDigit
  | _ => false

/-- `re.match(r'\d{3}\d{2}KT', part)`: prefix match. -/
def matchWindFixed : List Char → Bool
  | a :: b :: c :: d :: e :: 'K' :: 'T' :: _ =>
    a.isDigit && b.isDigit && c.isDigit && d.isDigit && e.isDigit
  | _ => false

/-- `re.match(r'VRB\d{2}KT', part)`: prefix match. -/
def matchWindVRB : List Char → Bool
  | 'V' :: 'R' :: 'B' :: a :: b :: 'K' :: 'T' :: _ => a.isDigit && b.isDigit
  | _ => false

/-- Consume the regex group `M?\d{2}` at the front (with Python re
backtracking: an `M`-headed string can only use the `M` alternative, since
`M` is not a digit). -/
def chompMdd : List Char → Option (List Char)
  | x :: a :: b :: rest =>
    if x = 'M' then if a.isDigit && b.isDigit then some rest else none
    else if x.isDigit && a.isDigit then some (b :: rest)
    else none
  | [x, a] => if x = 'M' then none else if x.isDigit && a.isDigit then some [] else none
  | _ => none

/-- `re.match(r'M?\d{2}/M?\d{2}', part)`: prefix match. -/
def matchTempTok (cs : List Char) : Bool :=
  match chompMdd cs with
  | some ('/' :: rest) => (chompMdd rest).isSome
  | _ => false

def splitSlashAux : List Char → List Char → List (List Char)
  | [], acc => [acc.reverse]
  | c :: cs, acc =>
    if c = '/' then acc.reverse :: splitSlashAux cs [] else splitSlashAux cs (c :: acc)

/-- Python `part.split('/')` (keeps empty pieces). -/
def splitSlash (cs : List Char) : List (List Char) := splitSlashAux cs []

/-- Python `temps[i].replace('M', '-')` (single-character replace). -/
def replaceMinus (cs : List Char) : List Char :=
  cs.map (fun c => if c = 'M' then '-' else c)

/-- The classifier gate `any(wx in part for wx in [...])`. -/
def containsAnyWx (cs : List Char) : Bool :=
  [['R', 'A'], ['S', 'N'], ['D', 'Z'], ['F', 'G'],
   ['B', 'R'], ['H', 'Z'], ['T', 'S'], ['S', 'H']].any (fun c => containsSub c cs)

/-- The classifier gate `any(part.startswith(cloud) for cloud in [...])`. -/
def cloudGate (cs : List Char) : Bool :=
  [['C', 'L', 'R'], ['S', 'K', 'C'], ['F', 'E', 'W'],
   ['S', 'C', 'T'], ['B', 'K', 'N'], ['O', 'V', 'C']].any (fun c => listStartsWith c cs)

/-- `part.startswith('A') and len(part) == 5`. -/
def matchPressTok : List Char → Bool
  | 'A' :: rest => rest.length == 4
  | _ => false

/-- Print the value `ip + fp/100` (with an optional minus sign) the way
Python prints the float: shortest decimal, so trailing fractional zeros are
trimmed but at least one fractional digit is kept. -/
def fmtHundredths (neg : Bool) (ip fp : Nat) : String :=
  (if neg then "-" else "") ++ Nat.repr ip ++ "." ++
    (if fp % 10 = 0 then Nat.repr (fp / 10)
     else if fp < 10 then "0" ++ Nat.repr fp else Nat.repr fp)

/-- Models `float(part[1:3] + '.' + part[3:5])` followed by the f-string
formatting of the result.  Tokens contain no whitespace, so the only strings
of shape `cc.cc` Python can parse are `[sign]D.DD` and `DD.DD`; any other
shape raises ValueError (`.error ()`).  These values round-trip through the
nearest float, so the printed text is the trimmed decimal itself. -/
def floatDotFmt (c1 c2 c3 c4 : Char) : Except Unit String :=
  if c1.isDigit && c2.isDigit && c3.isDigit && c4.isDigit then
    .ok (fmtHundredths false (10 * dv c1 + dv c2) (10 * dv c3 + dv c4))
  else if (c1 = '-' || c1 = '+') && c2.isDigit && c3.isDigit && c4.isDigit then
    .ok (fmtHundredths (c1 = '-') (dv c2) (10 * dv c3 + dv c4))
  else .error ()

/-- The f-string of the time branch of `decode_metar`. -/
def timeText (part : List Char) : String :=
  "Observed at " ++ String.mk ((part.drop 2).take 2) ++ ":" ++
    String.mk ((part.drop 4).take 2) ++ "Z on day " ++ String.mk (part.take 2)

def windFixedText (direction speed : Int) : String :=
  "Wind from the " ++ get_wind_direction_text direction ++ " at " ++ Int.repr speed ++ " knots"

def windVarText (part : List Char) : String :=
  "Variable wind at " ++ String.mk ((part.drop 3).take 2) ++ " knots"

def tempText (tc : Int) : String :=
  Int.repr (celsius_to_fahrenheit tc) ++ "°F (" ++ Int.repr tc ++ "°C)"

def dewText (dc : Int) : String :=
  "Dewpoint " ++ Int.repr (celsius_to_fahrenheit dc) ++ "°F (" ++ Int.repr dc ++ "°C)"

/-- The loop body of `decode_metar` (src/app.py lines 190-241): classify one
token by the if/elif chain and update the record.  `.error ()` models an
uncaught ValueError (possible in the visibility, temperature and pressure
branches); in the wind branch `int()` cannot fail because the regex
guarantees digits, but the parse is still modelled through `pyInt?`. -/
def decodeTok (d : Decoded) (part : List Char) : Except Unit Decoded :=
  if matchTimeTok part then .ok { d with time := timeText part }
  else if matchWindFixed part || matchWindVRB part then
    if listStartsWith ['V', 'R', 'B'] part then .ok { d with wind := windVarText part }
    else
      match pyInt? (part.take 3), pyInt? ((part.drop 3).take 2) with
      | some direction, some speed => .ok { d with wind := windFixedText direction speed }
      | _, _ => .error ()
  else if endsSM part then
    match decode_visibility part with
    | .ok v => .ok { d with visibility := v }
    | .error e => .error e
  else if containsAnyWx part then
    match decode_weather_phenomena part with
    | some w => .ok { d with weather := w }
    | none => .ok d
  else if cloudGate part then .ok { d with clouds := decode_clouds part }
  else if matchTempTok part then
    match splitSlash part with
    | t0 :: t1 :: _ =>
      match pyInt? (replaceMinus t0), pyInt? (replaceMinus t1) with
      | some tc, some dc => .ok { d with temperature := tempText tc, dewpoint := dewText dc }
      | _, _ => .error ()
    | _ => .error ()
  else if matchPressTok part then
    match part with
    | _ :: c1 :: c2 :: c3 :: c4 :: _ =>
      match floatDotFmt c1 c2 c3 c4 with
      | .ok v => .ok { d with pressure := "Pressure " ++ v ++ " inHg" }
      | .error e => .error e
    | _ => .error ()
  else .ok d

/-- The `for part in parts` loop of `decode_metar`. -/
def runToks (d : Decoded) : List (List Char) → Except Unit Decoded
  | [] => .ok d
  | t :: ts =>
    match decodeTok d t with
    | .ok d1 => runToks d1 ts
    | .error e => .error e

/-- The summary composition of `decode_metar` (src/app.py lines 244-260);
a Python string is truthy iff non-empty. -/
def composeSummary (d : Decoded) : String :=
  let ps1 : List String :=
    if d.weather ≠ "" then [d.weather] else if d.clouds ≠ "" then [d.clouds] else []
  let ps2 : List String := if d.temperature ≠ "" then ps1 ++ [d.temperature] else ps1
  let ps3 : List String := if d.wind ≠ "" then ps2 ++ [d.wind] else ps2
  if ps3 ≠ [] then String.intercalate ", " ps3 else "Weather conditions available"

/-- Result of `decode_metar`: `.unable` is the `"Unable to decode METAR"`
return for token-free input, `.error` an uncaught ValueError escaping the
call, `.ok` the returned dict (summary, details, raw). -/
inductive MetarOut where
  | error : MetarOut
  | unable : MetarOut
  | ok (summary : String) (details : Decoded) (raw : String) : MetarOut
  deriving DecidableEq

/-- `decode_metar` from src/app.py. -/
def decode_metar (s : String) : MetarOut :=
  match pySplit s.toList with
  | [] => .unable
  | p0 :: rest =>
    match runToks { emptyDecoded with station := String.mk p0 } (p0 :: rest) with
    | .ok d => .ok (composeSummary d) d s
    | .error _ => .error

/-- The per-token write list: which (field, text) assignments the loop body
performs for a token.  Mirrors `decodeTok` branch by branch; proved
equivalent below (`decodeTok_eq`). -/
def tokenWrites (part : List Char) : Except Unit (List (Fld × String)) :=
  if matchTimeTok part then .ok [(.time, timeText part)]
  else if matchWindFixed part || matchWindVRB part then
    if listStartsWith ['V', 'R', 'B'] part then .ok [(.wind, windVarText part)]
    else
      match pyInt? (part.take 3), pyInt? ((part.drop 3).take 2) with
      | some direction, some speed => .ok [(.wind, windFixedText direction speed)]
      | _, _ => .error ()
  else if endsSM part then
    match decode_visibility part with
    | .ok v => .ok [(.visibility, v)]
    | .error e => .error e
  else if containsAnyWx part then
    match decode_weather_phenomena part with
    | some w => .ok [(.weather, w)]
    | none => .ok []
  else if cloudGate part then .ok [(.clouds, decode_clouds part)]
  else if matchTempTok part then
    match splitSlash part with
    | t0 :: t1 :: _ =>
      match pyInt? (replaceMinus t0), pyInt? (replaceMinus t1) with
      | some tc, some dc => .ok [(.temperature, tempText tc), (.dewpoint, dewText dc)]
      | _, _ => .error ()
    | _ => .error ()
  else if matchPressTok part then
    match part with
    | _ :: c1 :: c2 :: c3 :: c4 :: _ =>
      match floatDotFmt c1 c2 c3 c4 with
      | .ok v => .ok [(.pressure, "Pressure " ++ v ++ " inHg")]
      | .error e => .error e
    | _ => .error ()
  else .ok []

def applyWrites (d : Decoded) : List (Fld × String) → Decoded
  | [] => d
  | (f, v) :: rest => applyWrites (setF d f v) rest

/-- The values written to field `f` by the write list `l`, in order. -/
def valuesFor (l : List (Fld × String)) (f : Fld) : List String :=
  (l.filter (fun p => p.1 == f)).map (fun p => p.2)

/-- All values written to field `f` over a token sequence, in order. -/
def fieldWrites (toks : List (List Char)) (f : Fld) : List String :=
  match toks with
  | [] => []
  | t :: ts =>
    (match tokenWrites t with
     | .ok l => valuesFor l f
     | .error _ => []) ++ fieldWrites ts f

/-- Last element of a list, or the default for an empty list: the
"last token wins" selector. -/
def lastD (l : List String) (dflt : String) : String :=
  match l with
  | [] => dflt
  | x :: xs => lastD xs x

/-- C3, claim side: the stated (pre-amendment) time-token shape — EXACTLY six
digits followed by `Z` and nothing else. -/
def specExactTimeForm (cs : List Char) : Bool := matchTimeTok cs && (cs.length == 7)

/-- The claim's 16 full-word compass names, clockwise from north. -/
def specDirNames : List String :=
  ["north", "north-northeast", "northeast", "east-northeast",
   "east", "east-southeast", "southeast", "south-southeast",
   "south", "south-southwest", "southwest", "west-southwest",
   "west", "west-northwest", "northwest", "north-northwest"]

/-- C4/C10, claim side: full-word name at index round(degrees / 22.5) mod 16
(the formula itself sends 0 and 360 to index 0 = "north"). -/
def specCompassName (degrees : Int) : String :=
  specDirNames.getD (roundDiv (2 * degrees) 45 % 16).toNat ""

/-- C5, claim side: all contained codes in the fixed list order, each with
the uniform intensity text determined once from the token start; `none` when
no known code is contained. -/
def specWeatherPhenomena (wx : List Char) : Option String :=
  let hits := (wxCodes.filter (fun p => containsSub p.1 wx)).map (fun p => wxIntensity wx ++ p.2)
  if hits = [] then none else some (String.intercalate ", " hits)

/-- C8, claim side: summary parts in the fixed priority order — weather else
clouds (never both), then temperature, then wind. -/
def specSummaryParts (d : Decoded) : List String :=
  (if d.weather ≠ "" then [d.weather] else if d.clouds ≠ "" then [d.clouds] else []) ++
  (if d.temperature ≠ "" then [d.temperature] else []) ++
  (if d.wind ≠ "" then [d.wind] else [])

/-- C8, claim side: the joined summary, with the fixed fallback text when no
part is present. -/
def specSummary (d : Decoded) : String :=
  if specSummaryParts d = [] then "Weather conditions available"
  else String.intercalate ", " (specSummaryParts d)

theorem fieldGet_setF (d : Decoded) (f g : Fld) (v : String) :
    fieldGet (setF d f v) g = if f = g then v else fieldGet d g := by
  cases f <;> cases g <;> simp [setF, fieldGet]

theorem lastD_append (xs ys : List String) (a : String) :
    lastD (xs ++ ys) a = lastD ys (lastD xs a) := by
  induction xs generalizing a with
  | nil => simp [lastD]
  | cons x xs ih => simp [lastD, ih]

theorem lastD_irrel (l : List String) (a b : String) (h : l ≠ []) :
    lastD l a = lastD l b := by
  cases l with
  | nil => exact absurd rfl h
  | cons x xs => simp [lastD]

theorem fieldGet_applyWrites (l : List (Fld × String)) (d : Decoded) (f : Fld) :
    fieldGet (applyWrites d l) f = lastD (valuesFor l f) (fieldGet d f) := by
  induction l generalizing d with
  | nil => simp [applyWrites, valuesFor, lastD]
  | cons p rest ih =>
    obtain ⟨g, v⟩ := p
    by_cases h : g = f
    · subst h
      simp [applyWrites, valuesFor, List.filter_cons, ih, fieldGet_setF, lastD]
    · simp [applyWrites, valuesFor, List.filter_cons, ih, fieldGet_setF, h, lastD]

theorem digit_ne {c : Char} (d : Char) (hc : c.isDigit = true) (hd : d.isDigit = false) :
    c ≠ d ∧ d ≠ c := by
  constructor
  · intro h
    rw [h] at hc
    rw [hc] at hd
    cases hd
  · intro h
    rw [← h] at hc
    rw [hc] at hd
    cases hd

theorem digit_not_ws {c : Char} (hc : c.isDigit = true) : pyIsSpace c = false := by
  unfold pyIsSpace
  simp [(digit_ne ' ' hc (by decide)).1, (digit_ne '\t' hc (by decide)).1,
    (digit_ne '\n' hc (by decide)).1, (digit_ne '\r' hc (by decide)).1,
    (digit_ne '\x0b' hc (by decide)).1, (digit_ne '\x0c' hc (by decide)).1]

theorem mem_dropWhile {α} (p : α → Bool) (l : List α) (x : α) (hx : x ∈ l)
    (hp : p x = false) : x ∈ l.dropWhile p := by
  induction l with
  | nil => cases hx
  | cons c rest ih =>
    rw [List.dropWhile_cons]
    by_cases h : p c = true
    · rcases List.mem_cons.mp hx with rfl | hx2
      · rw [h] at hp; cases hp
      · simp [h, ih hx2]
    · rw [if_neg h]; exact hx

theorem mem_stripWS (l : List Char) (x : Char) (hx : x ∈ l) (hp : pyIsSpace x = false) :
    x ∈ stripWS l := by
  unfold stripWS
  rw [List.mem_reverse]
  exact mem_dropWhile _ _ _ (List.mem_reverse.mpr (mem_dropWhile _ _ _ hx hp)) hp

theorem stripWS_clean (l : List Char) (h : ∀ x ∈ l, pyIsSpace x = false) :
    stripWS l = l := by
  unfold stripWS
  cases l with
  | nil => rfl
  | cons c cs =>
    rw [List.dropWhile_cons, if_neg (by simp [h c (by simp)])]
    cases hr : (c :: cs).reverse with
    | nil => exact absurd hr (by simp)
    | cons y ys =>
      have hy : pyIsSpace y = false :=
        h y (List.mem_reverse.mp (hr ▸ List.mem_cons_self y ys))
      rw [List.dropWhile_cons, if_neg (by simp [hy]), ← hr, List.reverse_reverse]

theorem digitsUnd_chars (l : List Char) (n : Nat) (h : digitsUnd l = some n) :
    ∀ x ∈ l, x.isDigit = true ∨ x = '_' := by
  unfold digitsUnd at h
  split at h
  · rename_i hc
    intro x hx
    simp only [Bool.and_eq_true, List.all_eq_true] at hc
    have h2 := hc.1.2 x hx
    simpa using h2
  · cases h

theorem pyIntSigned_chars (s : List Char) (n : Int) (h : pyIntSigned s = some n) :
    ∀ x ∈ s, x = '+' ∨ x = '-' ∨ x.isDigit = true ∨ x = '_' := by
  cases s with
  | nil => intro x hx; cases hx
  | cons c rest =>
    simp only [pyIntSigned] at h
    intro x hx
    by_cases h1 : c = '+'
    · rw [if_pos h1] at h
      obtain ⟨v, hv, _⟩ := Option.map_eq_some'.mp h
      rcases List.mem_cons.mp hx with rfl | hx2
      · exact Or.inl h1
      · rcases digitsUnd_chars _ _ hv x hx2 with h3 | h3
        · exact Or.inr (Or.inr (Or.inl h3))
        · exact Or.inr (Or.inr (Or.inr h3))
    · rw [if_neg h1] at h
      by_cases h2 : c = '-'
      · rw [if_pos h2] at h
        obtain ⟨v, hv, _⟩ := Option.map_eq_some'.mp h
        rcases List.mem_cons.mp hx with rfl | hx2
        · exact Or.inr (Or.inl h2)
        · rcases digitsUnd_chars _ _ hv x hx2 with h3 | h3
          · exact Or.inr (Or.inr (Or.inl h3))
          · exact Or.inr (Or.inr (Or.inr h3))
      · rw [if_neg h2] at h
        obtain ⟨v, hv, _⟩ := Option.map_eq_some'.mp h
        rcases digitsUnd_chars _ _ hv x hx with h3 | h3
        · exact Or.inr (Or.inr (Or.inl h3))
        · exact Or.inr (Or.inr (Or.inr h3))

theorem pyInt_no_S (p : List Char) (n : Int) (h : pyInt? p = some n) : 'S' ∉ p := by
  intro hS
  have hmem : 'S' ∈ stripWS p := mem_stripWS p 'S' hS (by decide)
  have h2 := pyIntSigned_chars _ _ h 'S' hmem
  rcases h2 with h1 | h1 | h1 | h1 <;> revert h1 <;> decide

theorem noDoubleUnd_of (l : List Char) (h : ∀ x ∈ l, x ≠ '_') : noDoubleUnd l = true := by
  induction l with
  | nil => rfl
  | cons a rest ih =>
    cases rest with
    | nil => rfl
    | cons b rest2 =>
      have ha := h a (by simp)
      simp [noDoubleUnd, ha, ih (fun x hx => h x (by simp [hx]))]

theorem digitsUnd_digits (l : List Char) (hne : l ≠ []) (h : ∀ x ∈ l, x.isDigit = true) :
    digitsUnd l = some (digitsVal l) := by
  obtain ⟨c, cs, rfl⟩ := List.exists_cons_of_ne_nil hne
  have hrev : headDigit (c :: cs).reverse = true := by
    cases hr : (c :: cs).reverse with
    | nil => exact absurd hr (by simp)
    | cons y ys =>
      have hy : y ∈ (c :: cs) := List.mem_reverse.mp (hr ▸ List.mem_cons_self y ys)
      simpa [headDigit] using h y hy
  have hcond : (headDigit (c :: cs) && headDigit (c :: cs).reverse &&
      (c :: cs).all (fun x => x.isDigit || x = '_') && noDoubleUnd (c :: cs)) = true := by
    simp only [Bool.and_eq_true, List.all_eq_true]
    refine ⟨⟨⟨?_, hrev⟩, ?_⟩, ?_⟩
    · simpa [headDigit] using h c (by simp)
    · intro x hx; simp [h x hx]
    · exact noDoubleUnd_of _ (fun x hx => (digit_ne '_' (h x hx) (by decide)).1)
  unfold digitsUnd
  rw [if_pos hcond, List.filter_eq_self.mpr h]

theorem pyInt_digits (l : List Char) (hne : l ≠ []) (h : ∀ x ∈ l, x.isDigit = true) :
    pyInt? l = some ((digitsVal l : Nat) : Int) := by
  unfold pyInt?
  rw [stripWS_clean l (fun x hx => digit_not_ws (h x hx))]
  obtain ⟨c, cs, rfl⟩ := List.exists_cons_of_ne_nil hne
  simp only [pyIntSigned]
  rw [if_neg (digit_ne '+' (h c (by simp)) (by decide)).1,
    if_neg (digit_ne '-' (h c (by simp)) (by decide)).1,
    digitsUnd_digits _ (by simp) h]
  rfl

theorem pyInt_neg_digits (l : List Char) (hne : l ≠ []) (h : ∀ x ∈ l, x.isDigit = true) :
    pyInt? ('-' :: l) = some (-((digitsVal l : Nat) : Int)) := by
  unfold pyInt?
  rw [stripWS_clean ('-' :: l) ?hws]
  case hws =>
    intro x hx
    rcases List.mem_cons.mp hx with rfl | hx2
    · decide
    · exact digit_not_ws (h x hx2)
  simp only [pyIntSigned]
  simp [digitsUnd_digits _ hne h]

theorem decodeTok_eq (d : Decoded) (part : List Char) :
    decodeTok d part = (tokenWrites part).map (fun l => applyWrites d l) := by
  unfold decodeTok tokenWrites
  repeat' first
  | rfl
  | split

theorem runToks_field (toks : List (List Char)) (f : Fld) :
    ∀ d det, runToks d toks = .ok det →
      fieldGet det f = lastD (fieldWrites toks f) (fieldGet d f) := by
  induction toks with
  | nil =>
    intro d det h
    simp only [runToks] at h
    cases h
    simp [fieldWrites, lastD]
  | cons t ts ih =>
    intro d det h
    cases hd : decodeTok d t with
    | error e => simp only [runToks, hd] at h; cases h
    | ok d1 =>
      simp only [runToks, hd] at h
      rw [decodeTok_eq] at hd
      cases hw : tokenWrites t with
      | error e => rw [hw] at hd; simp [Except.map] at hd
      | ok l =>
        rw [hw] at hd
        simp only [Except.map, Except.ok.injEq] at hd
        subst hd
        rw [ih _ det h, fieldGet_applyWrites]
        simp only [fieldWrites, hw]
        rw [lastD_append]

theorem tokenWrites_no_time (tok : List Char) (l : List (Fld × String))
    (hm : matchTimeTok tok = false) (hw : tokenWrites tok = .ok l) :
    valuesFor l .time = [] := by
  unfold tokenWrites at hw
  rw [if_neg (by simp [hm])] at hw
  repeat' split at hw
  all_goals cases hw
  all_goals rfl

theorem tokenWrites_no_weather (tok : List Char) (l : List (Fld × String))
    (hm : containsAnyWx tok = false) (hw : tokenWrites tok = .ok l) :
    valuesFor l .weather = [] := by
  unfold tokenWrites at hw
  repeat' split at hw
  all_goals cases hw
  all_goals simp_all [valuesFor]

theorem composeSummary_eq (d : Decoded) : composeSummary d = specSummary d := by
  unfold composeSummary specSummary specSummaryParts
  by_cases h1 : d.weather = "" <;> by_cases h2 : d.clouds = "" <;>
    by_cases h3 : d.temperature = "" <;> by_cases h4 : d.wind = "" <;>
    simp [h1, h2, h3, h4]

theorem pySplit_all_ws (cs : List Char) (h : ∀ x ∈ cs, pyIsSpace x = true) :
    pySplit cs = [] := by
  unfold pySplit
  induction cs with
  | nil => rfl
  | cons c rest ih =>
    have hc := h c (by simp)
    simp [splitWSAux, hc, ih (fun x hx => h x (by simp [hx]))]

theorem roundDiv45_shift (n k : Int) : roundDiv (n + 45 * k) 45 = roundDiv n 45 + k := by
  unfold roundDiv
  have hq : (n + 45 * k) / 45 = n / 45 + k := by
    rw [mul_comm]
    exact Int.add_mul_ediv_right n k (by norm_num)
  have hr : (n + 45 * k) % 45 = n % 45 := by
    rw [mul_comm]
    exact Int.add_mul_emod_self
  rw [hq, hr]
  split_ifs <;> omega

theorem dirTable_eq (i : Nat) (h : i < 16) :
    lookupAssoc wind_directions (dirAbbrevs.getD i "N") = specDirNames.getD i "" := by
  revert h
  revert i
  decide

theorem specDirNames_getD_mem (i : Nat) (h : i < 16) :
    specDirNames.getD i "" ∈ specDirNames := by
  revert h
  revert i
  decide

theorem windIdx_bounds (z : Int) :
    0 ≤ roundDiv (2 * z) 45 % 16 ∧ roundDiv (2 * z) 45 % 16 < 16 :=
  ⟨Int.emod_nonneg _ (by norm_num), Int.emod_lt_of_pos _ (by norm_num)⟩

theorem windDir_eq_spec (z : Int) : get_wind_direction_text z = specCompassName z := by
  unfold get_wind_direction_text specCompassName
  by_cases h : z = 0 ∨ z = 360
  · rcases h with h | h <;> subst h <;> decide
  · rw [if_neg h]
    have hb := windIdx_bounds z
    exact dirTable_eq _ (by omega)

theorem endsSM_concat (p : List Char) : endsSM (p ++ ['S', 'M']) = true := by
  unfold endsSM
  rw [List.reverse_append]
  simp [listStartsWith]

theorem replaceSM_concat (p : List Char) (h : 'S' ∉ p) :
    replaceSM (p ++ ['S', 'M']) = p := by
  induction p with
  | nil => rfl
  | cons c cs ih =>
    have hc : ¬(c = 'S' ∧ 'M' = 'M') ∧ ¬(c = 'S' ∧ True) := by
      constructor <;> rintro ⟨h1, _⟩ <;> exact h (h1 ▸ List.mem_cons_self c cs)
    have hS : 'S' ∉ cs := fun hx => h (List.mem_cons_of_mem c hx)
    cases cs with
    | nil => simp [replaceSM, fun h1 : c = 'S' => h (h1 ▸ List.mem_cons_self c [])]
    | cons b cs2 =>
      have : replaceSM (c :: b :: (cs2 ++ ['S', 'M'])) =
          c :: replaceSM (b :: (cs2 ++ ['S', 'M'])) := by
        rw [replaceSM]
        rw [if_neg (by rintro ⟨h1, _⟩; exact h (h1 ▸ List.mem_cons_self c (b :: cs2)))]
      simpa [this] using ih hS

theorem foldl_append_filter (wx : List Char) (l : List (List Char × String))
    (init : List String) :
    l.foldl (fun acc p => if containsSub p.1 wx then acc ++ [wxIntensity wx ++ p.2] else acc)
        init =
      init ++ (l.filter (fun p => containsSub p.1 wx)).map (fun p => wxIntensity wx ++ p.2) := by
  induction l generalizing init with
  | nil => simp
  | cons p rest ih =>
    by_cases h : containsSub p.1 wx = true
    · simp [List.foldl_cons, List.filter_cons, h, ih]
    · simp [List.foldl_cons, List.filter_cons, h, ih]

theorem weather_eq_spec (wx : List Char) :
    decode_weather_phenomena wx = specWeatherPhenomena wx := by
  unfold decode_weather_phenomena specWeatherPhenomena
  rw [foldl_append_filter]
  simp

/-- C1: the claim says decode_metar never fails on any input with at least
one token, and in particular that a bare `SM` token is not decoded as
visibility.  The code violates this: `"SM".endswith("SM")` routes the token
to decode_visibility, which calls `int("")` and raises ValueError, aborting
the whole decode.  This theorem exhibits the failure at the concrete input
`"KHIO SM"` (and at the single token `"SM"`). -/
theorem C1_sm_token_raises :
    decode_metar "KHIO SM" = MetarOut.error ∧
    decode_visibility ("SM".toList) = .error () :=
  ⟨by decide, by decide⟩

/-- C2: every input that is empty or all-whitespace tokenizes to zero tokens
and decode_metar returns the distinguished `unable` value (the
`"Unable to decode METAR"` return), not an exception; in particular for `""`
and `"   "`. -/
theorem C2_empty_input :
    (∀ s : String, (∀ x ∈ s.toList, pyIsSpace x = true) → decode_metar s = MetarOut.unable) ∧
    decode_metar "" = MetarOut.unable ∧ decode_metar "   " = MetarOut.unable := by
  refine ⟨?_, by decide, by decide⟩
  intro s hs
  unfold decode_metar
  rw [pySplit_all_ws _ hs]

theorem C2_empty_input_w : decode_metar " " = MetarOut.unable :=
  C2_empty_input.1 " " (by decide)

/-- C3, counterexample: the claim's "if and only if it is exactly 6 digits
followed by 'Z' (no other characters)" is false — `re.match` only anchors
the start, so the token `"000000Z9"` (an extra trailing character) still sets
the time field. -/
theorem C3_time_cex :
    decode_metar "000000Z9" = MetarOut.ok "Weather conditions available"
      { station := "000000Z9", time := "Observed at 00:00Z on day 00", wind := "",
        visibility := "", weather := "", clouds := "", temperature := "", dewpoint := "",
        pressure := "" } "000000Z9" ∧
    specExactTimeForm ("000000Z9".toList) = false :=
  ⟨by decide, by decide⟩

/-- C3, amended: a token sets the time field iff its first seven characters
are six digits followed by `Z` (a prefix match; trailing characters are
unconstrained), and then the field is "Observed at HH:MMZ on day DD" built
from digits 2-3, 4-5 and 0-1 of the token, with no range validation. -/
theorem C3_time_rule (d : Decoded) (tok : List Char) :
    (matchTimeTok tok = true → decodeTok d tok = .ok { d with time := timeText tok }) ∧
    (matchTimeTok tok = false → ∀ dd, decodeTok d tok = .ok dd → dd.time = d.time) := by
  constructor
  · intro h
    unfold decodeTok
    rw [if_pos h]
  · intro h dd hdd
    rw [decodeTok_eq] at hdd
    cases hw : tokenWrites tok with
    | error e => rw [hw] at hdd; cases hdd
    | ok l =>
      rw [hw] at hdd
      simp only [Except.map, Except.ok.injEq] at hdd
      subst hdd
      have h0 := fieldGet_applyWrites l d .time
      rw [tokenWrites_no_time tok l h hw] at h0
      exact h0

theorem C3_time_rule_w :
    decodeTok emptyDecoded ("061853Z".toList) =
      .ok { emptyDecoded with time := "Observed at 18:53Z on day 06" } ∧
    ({ emptyDecoded with time := "t0" } : Decoded).time = "t0" := by
  constructor
  · exact ((C3_time_rule emptyDecoded ("061853Z".toList)).1 (by decide)).trans (by decide)
  · exact (C3_time_rule { emptyDecoded with time := "t0" } ("KHIO".toList)).2
      (by decide) _ (by decide)

/-- C5: decode_weather_phenomena reports exactly the contained codes, in the
fixed RA,SN,DZ,FG,BR,HZ,TS,SH order, joined with ", ", each with the uniform
intensity text determined once from the token start (`-` light, `+` heavy,
`VC` nearby, else none); a token containing no known code yields `none`, and
the classifier leaves the weather field unchanged for such a token. -/
theorem C5_weather_phenomena :
    (∀ wx : List Char, decode_weather_phenomena wx = specWeatherPhenomena wx) ∧
    (∀ wx : List Char, containsAnyWx wx = false → decode_weather_phenomena wx = none) ∧
    (∀ (d : Decoded) (tok : List Char) (dd : Decoded), containsAnyWx tok = false →
      decodeTok d tok = .ok dd → dd.weather = d.weather) := by
  refine ⟨weather_eq_spec, ?_, ?_⟩
  · intro wx h
    unfold containsAnyWx at h
    simp only [List.any_cons, List.any_nil, Bool.or_eq_false_iff] at h
    obtain ⟨h1, h2, h3, h4, h5, h6, h7, h8, -⟩ := h
    unfold decode_weather_phenomena
    rw [foldl_append_filter]
    have hf : wxCodes.filter (fun p => containsSub p.1 wx) = [] := by
      unfold wxCodes
      simp [List.filter_cons, h1, h2, h3, h4, h5, h6, h7, h8]
    simp [hf]
  · intro d tok dd h hdd
    rw [decodeTok_eq] at hdd
    cases hw : tokenWrites tok with
    | error e => rw [hw] at hdd; cases hdd
    | ok l =>
      rw [hw] at hdd
      simp only [Except.map, Except.ok.injEq] at hdd
      subst hdd
      have h0 := fieldGet_applyWrites l d .weather
      rw [tokenWrites_no_weather tok l h hw] at h0
      exact h0

theorem C5_weather_phenomena_w :
    decode_weather_phenomena ("+TSRA".toList) = some "heavy rain, heavy thunderstorm" ∧
    decode_weather_phenomena ("KHIO".toList) = none ∧
    ({ emptyDecoded with weather := "w0" } : Decoded).weather = "w0" := by
  refine ⟨?_, ?_, ?_⟩
  · exact (C5_weather_phenomena.1 ("+TSRA".toList)).trans (by decide)
  · exact C5_weather_phenomena.2.1 ("KHIO".toList) (by decide)
  · exact C5_weather_phenomena.2.2 { emptyDecoded with weather := "w0" } ("KHIO".toList)
      _ (by decide) (by decide)

/-- C6: for a token that is a prefix `p` followed by `SM`, where `p` parses
as an integer `n` under Python int() semantics, decode_visibility returns
"10+ miles visibility" when `n ≥ 10` (including exactly "10") and
"`p` miles visibility" otherwise (the prefix text, exactly as the code
interpolates the original `miles` string); decode_visibility on the
unrecognized format "CAVOK" returns "visibility not reported". -/
theorem C6_visibility :
    (∀ (p : List Char) (n : Int), pyInt? p = some n →
      decode_visibility (p ++ ['S', 'M']) =
        .ok (if 10 ≤ n then "10+ miles visibility"
             else String.mk p ++ " miles visibility")) ∧
    decode_visibility ("CAVOK".toList) = .ok "visibility not reported" := by
  refine ⟨?_, by decide⟩
  intro p n h
  have hS : 'S' ∉ p := pyInt_no_S p n h
  unfold decode_visibility
  rw [if_pos (Or.inr (endsSM_concat p)), replaceSM_concat p hS]
  by_cases hp : p = ['1', '0']
  · subst hp
    rw [show pyInt? ['1', '0'] = some 10 from by decide] at h
    injection h with h10
    rw [if_pos rfl, if_pos (by omega)]
  · rw [if_neg hp, h]
    by_cases hn : 10 ≤ n <;> simp [hn]

theorem C6_visibility_w :
    decode_visibility ("3SM".toList) = .ok "3 miles visibility" := by
  have h := C6_visibility.1 ['3'] 3 (by decide)
  exact h.trans (by decide)

/-- C8: on every successful decode the summary equals the spec-side
composition: weather if present else clouds (never both), then temperature,
then wind, joined with ", ", and the fixed fallback "Weather conditions
available" when none of the three is present. -/
theorem C8_summary (s : String) (sum : String) (det : Decoded) (raw : String)
    (h : decode_metar s = MetarOut.ok sum det raw) : sum = specSummary det := by
  unfold decode_metar at h
  split at h
  · cases h
  · split at h
    · cases h
      exact composeSummary_eq _
    · cases h

theorem C8_summary_w :
    "light rain" =
      specSummary
        { station := "X", time := "", wind := "", visibility := "",
          weather := "light rain", clouds := "", temperature := "", dewpoint := "",
          pressure := "" } :=
  C8_summary "X -RA" "light rain" _ "X -RA" (by decide)

/-- C9: when an input decodes successfully, every record field that receives
two or more writes over the token scan ends up holding the value written by
the last matching token in encounter order (last-token-wins). -/
theorem C9_last_token_wins (s : String) (sum : String) (det : Decoded) (raw : String)
    (f : Fld) (h : decode_metar s = MetarOut.ok sum det raw)
    (hn : 2 ≤ (fieldWrites (pySplit s.toList) f).length) :
    fieldGet det f = lastD (fieldWrites (pySplit s.toList) f) "" := by
  unfold decode_metar at h
  split at h
  · cases h
  · rename_i p0 rest hsp
    split at h
    · rename_i d hr
      cases h
      rw [hsp] at hn
      rw [hsp]
      rw [runToks_field (p0 :: rest) f _ _ hr]
      apply lastD_irrel
      intro hnil
      rw [hnil] at hn
      simp at hn
    · cases h

theorem C9_last_token_wins_w :
    fieldGet
        { station := "KORD", time := "Observed at 18:51Z on day 06",
          wind := "Wind from the east at 14 knots", visibility := "3 miles visibility",
          weather := "light rain", clouds := "overcast at 2500 feet",
          temperature := "64°F (18°C)", dewpoint := "Dewpoint 63°F (17°C)",
          pressure := "Pressure 29.92 inHg" } Fld.clouds =
      lastD (fieldWrites
        (pySplit ("KORD 061851Z 09014KT 3SM -RA SCT008 BKN015 OVC025 18/17 A2992").toList)
        Fld.clouds) "" :=
  C9_last_token_wins "KORD 061851Z 09014KT 3SM -RA SCT008 BKN015 OVC025 18/17 A2992"
    "light rain, 64°F (18°C), Wind from the east at 14 knots" _
    "KORD 061851Z 09014KT 3SM -RA SCT008 BKN015 OVC025 18/17 A2992" Fld.clouds
    (by decide) (by decide)

/-- C10, counterexample: the claim asserts get_wind_direction_text is
defined (never raises) for EVERY integer, but at degrees = 10^400 the
int-to-float conversion performed by `degrees / 22.5` overflows
(|10^400| is past the 2^1024 - 2^970 bound), so the source raises
OverflowError rather than returning a compass name. -/
theorem C10_wind_cex : pyIntToFloatOverflows (10 ^ 400) = true := by
  unfold pyIntToFloatOverflows
  norm_num

/-- C10, amended: for every integer degree value d with |d| ≤ 2^51 — the
range on which CPython's int-to-float conversion and the float division by
22.5 are exact enough that the program computes exactly
round(d / 22.5) mod 16 (see the comment on get_wind_direction_text) —
get_wind_direction_text d is defined, returns one of the 16 full-word
compass names, and equals get_wind_direction_text (d % 360) (Python's
nonnegative remainder); in particular -1 and 361 both map to "north".
Beyond the bound the float model diverges, and from |d| ≥ 2^1024 - 2^970
the conversion raises OverflowError (see C10_wind_cex). -/
theorem C10_wind_direction_bounded :
    (∀ z : Int, |z| ≤ 2 ^ 51 →
      get_wind_direction_text z ∈ specDirNames ∧
      get_wind_direction_text z = get_wind_direction_text (z % 360)) ∧
    get_wind_direction_text (-1) = "north" ∧ get_wind_direction_text 361 = "north" := by
  refine ⟨fun z hz => ⟨?_, ?_⟩, by decide, by decide⟩
  · rw [windDir_eq_spec]
    unfold specCompassName
    have hb := windIdx_bounds z
    exact specDirNames_getD_mem _ (by omega)
  · rw [windDir_eq_spec, windDir_eq_spec]
    unfold specCompassName
    have h2 : 2 * z = 2 * (z % 360) + 45 * (16 * (z / 360)) := by omega
    rw [h2, roundDiv45_shift, Int.add_mul_emod_self_left]

theorem C10_wind_direction_bounded_w :
    get_wind_direction_text 725 ∈ specDirNames ∧
    get_wind_direction_text 725 = "north" := by
  have h := C10_wind_direction_bounded.1 725 (by decide)
  exact ⟨h.1, h.2.trans (by decide)⟩

theorem listStartsWith_false_head (p1 x : Char) (ps xs : List Char) (h : p1 ≠ x) :
    listStartsWith (p1 :: ps) (x :: xs) = false := by
  simp [listStartsWith, h]

theorem containsSub_two_false (p1 p2 : Char) (t : List Char) (h : p1 ∉ t) :
    containsSub [p1, p2] t = false := by
  induction t with
  | nil => rfl
  | cons x xs ih =>
    have hx : p1 ≠ x := fun he => h (by rw [he]; exact List.mem_cons_self x xs)
    simp [containsSub, listStartsWith, hx,
      ih (fun hm => h (List.mem_cons_of_mem x hm))]

theorem wx_head_not_mem (t : List Char)
    (hchars : ∀ x ∈ t, x.isDigit = true ∨ x = 'M' ∨ x = '/')
    (p : Char) (hp : p.isDigit = false) (hm : p ≠ 'M') (hs : p ≠ '/') : p ∉ t := by
  intro hmem
  rcases hchars p hmem with h | h | h
  · rw [h] at hp; cases hp
  · exact hm h
  · exact hs h

theorem containsAnyWx_false_chars (t : List Char)
    (hchars : ∀ x ∈ t, x.isDigit = true ∨ x = 'M' ∨ x = '/') :
    containsAnyWx t = false := by
  unfold containsAnyWx
  simp only [List.any_cons, List.any_nil, Bool.or_eq_false_iff]
  refine ⟨?_, ?_, ?_, ?_, ?_, ?_, ?_, ?_, trivial⟩ <;>
    exact containsSub_two_false _ _ t
      (wx_head_not_mem t hchars _ (by decide) (by decide) (by decide))

theorem cloudGate_false_chars (x : Char) (xs : List Char)
    (hx : x.isDigit = true ∨ x = 'M') : cloudGate (x :: xs) = false := by
  have hne : ∀ p : Char, p.isDigit = false → p ≠ 'M' → p ≠ x := by
    intro p hp hpm
    rcases hx with h | h
    · exact (digit_ne p h hp).2
    · rw [h]; exact hpm
  unfold cloudGate
  simp only [List.any_cons, List.any_nil, Bool.or_eq_false_iff]
  refine ⟨?_, ?_, ?_, ?_, ?_, ?_, trivial⟩ <;>
    exact listStartsWith_false_head _ _ _ _ (hne _ (by decide) (by decide))

theorem matchTimeTok_false_head (t : List Char) (h : headDigit t = false) :
    matchTimeTok t = false := by
  cases t with
  | nil => rfl
  | cons x rest =>
    simp only [headDigit] at h
    unfold matchTimeTok
    split <;> simp_all

theorem matchWindFixed_false_head (t : List Char) (h : headDigit t = false) :
    matchWindFixed t = false := by
  cases t with
  | nil => rfl
  | cons x rest =>
    simp only [headDigit] at h
    unfold matchWindFixed
    split <;> simp_all

theorem matchWindVRB_false_headNe (x : Char) (rest : List Char) (h : 'V' ≠ x) :
    matchWindVRB (x :: rest) = false := by
  unfold matchWindVRB
  split <;> simp_all

theorem digits_mem_two (a b : Char) (ha : a.isDigit = true) (hb : b.isDigit = true) :
    ∀ x ∈ [a, b], x.isDigit = true := by
  intro x hx
  simp only [List.mem_cons, List.not_mem_nil, or_false] at hx
  rcases hx with rfl | rfl
  · exact ha
  · exact hb

theorem digits_mem_three (a b c : Char) (ha : a.isDigit = true) (hb : b.isDigit = true)
    (hc : c.isDigit = true) : ∀ x ∈ [a, b, c], x.isDigit = true := by
  intro x hx
  simp only [List.mem_cons, List.not_mem_nil, or_false] at hx
  rcases hx with rfl | rfl | rfl
  · exact ha
  · exact hb
  · exact hc

/-- C4: a fixed-direction token of exactly 3 digits + 2 digits + `KT` sets
wind to "Wind from the <direction> at <speed> knots", where speed is the
2-digit group as an integer and direction is the full-word compass name at
index round(degrees / 22.5) mod 16 of the clockwise 16-point rose (the
formula maps 0 and 360 to "north"); a variable token `VRB` + 2 digits + `KT`
sets wind to "Variable wind at SS knots" with SS the original 2-character
text, not renumbered. -/
theorem C4_wind :
    (∀ (d : Decoded) (a b c e f : Char),
      a.isDigit = true → b.isDigit = true → c.isDigit = true →
      e.isDigit = true → f.isDigit = true →
      decodeTok d [a, b, c, e, f, 'K', 'T'] =
        .ok
          { d with
            wind := "Wind from the " ++ specCompassName ((digitsVal [a, b, c] : Nat) : Int) ++
              " at " ++ Int.repr ((digitsVal [e, f] : Nat) : Int) ++ " knots" }) ∧
    (∀ (d : Decoded) (a b : Char), a.isDigit = true → b.isDigit = true →
      decodeTok d ['V', 'R', 'B', a, b, 'K', 'T'] =
        .ok { d with wind := "Variable wind at " ++ String.mk [a, b] ++ " knots" }) := by
  constructor
  · intro d a b c e f ha hb hc he hf
    have h1 : matchTimeTok [a, b, c, e, f, 'K', 'T'] = false := by simp [matchTimeTok]
    have h2 : matchWindFixed [a, b, c, e, f, 'K', 'T'] = true := by
      simp [matchWindFixed, ha, hb, hc, he, hf]
    have h3 : listStartsWith ['V', 'R', 'B'] [a, b, c, e, f, 'K', 'T'] = false := by
      simp [listStartsWith, (digit_ne 'V' ha (by decide)).2]
    have hp3 : pyInt? [a, b, c] = some ((digitsVal [a, b, c] : Nat) : Int) :=
      pyInt_digits _ (by simp) (digits_mem_three a b c ha hb hc)
    have hp2 : pyInt? [e, f] = some ((digitsVal [e, f] : Nat) : Int) :=
      pyInt_digits _ (by simp) (digits_mem_two e f he hf)
    unfold decodeTok
    rw [if_neg (by simp [h1]), if_pos (by simp [h2]), if_neg (by simp [h3])]
    simp only [show List.take 3 [a, b, c, e, f, 'K', 'T'] = [a, b, c] from rfl,
      show List.take 2 (List.drop 3 [a, b, c, e, f, 'K', 'T']) = [e, f] from rfl,
      hp3, hp2, windFixedText, windDir_eq_spec]
  · intro d a b ha hb
    have h1 : matchTimeTok ['V', 'R', 'B', a, b, 'K', 'T'] = false := by simp [matchTimeTok]
    have h3 : matchWindVRB ['V', 'R', 'B', a, b, 'K', 'T'] = true := by
      simp [matchWindVRB, ha, hb]
    have h4 : listStartsWith ['V', 'R', 'B'] ['V', 'R', 'B', a, b, 'K', 'T'] = true := by
      simp [listStartsWith]
    unfold decodeTok
    rw [if_neg (by simp [h1]), if_pos (by simp [h3]), if_pos h4]
    rfl

theorem C4_wind_w :
    decodeTok emptyDecoded ("27008KT".toList) =
      .ok { emptyDecoded with wind := "Wind from the west at 8 knots" } ∧
    decodeTok emptyDecoded ("VRB05KT".toList) =
      .ok { emptyDecoded with wind := "Variable wind at 05 knots" } := by
  constructor
  · exact (C4_wind.1 emptyDecoded '2' '7' '0' '0' '8' (by decide) (by decide) (by decide)
      (by decide) (by decide)).trans (by decide)
  · exact (C4_wind.2 emptyDecoded '0' '5' (by decide) (by decide)).trans (by decide)

/-- C7: a temperature/dewpoint token of exact form `[M]DD/[M]DD` (all four
shapes) parses each `M` as a minus sign, sets temperature and dewpoint from
the two Celsius values, and converts with F = round(C × 9/5 + 32) to the
nearest integer (celsius_to_fahrenheit); in particular
celsius_to_fahrenheit (-273) = -459. -/
theorem C7_temperature :
    (∀ (d : Decoded) (a b c e : Char),
      a.isDigit = true → b.isDigit = true → c.isDigit = true → e.isDigit = true →
      decodeTok d [a, b, '/', c, e] =
        .ok { d with temperature := tempText ((digitsVal [a, b] : Nat) : Int),
                     dewpoint := dewText ((digitsVal [c, e] : Nat) : Int) }) ∧
    (∀ (d : Decoded) (a b c e : Char),
      a.isDigit = true → b.isDigit = true → c.isDigit = true → e.isDigit = true →
      decodeTok d ['M', a, b, '/', c, e] =
        .ok { d with temperature := tempText (-((digitsVal [a, b] : Nat) : Int)),
                     dewpoint := dewText ((digitsVal [c, e] : Nat) : Int) }) ∧
    (∀ (d : Decoded) (a b c e : Char),
      a.isDigit = true → b.isDigit = true → c.isDigit = true → e.isDigit = true →
      decodeTok d [a, b, '/', 'M', c, e] =
        .ok { d with temperature := tempText ((digitsVal [a, b] : Nat) : Int),
                     dewpoint := dewText (-((digitsVal [c, e] : Nat) : Int)) }) ∧
    (∀ (d : Decoded) (a b c e : Char),
      a.isDigit = true → b.isDigit = true → c.isDigit = true → e.isDigit = true →
      decodeTok d ['M', a, b, '/', 'M', c, e] =
        .ok { d with temperature := tempText (-((digitsVal [a, b] : Nat) : Int)),
                     dewpoint := dewText (-((digitsVal [c, e] : Nat) : Int)) }) ∧
    celsius_to_fahrenheit (-273) = -459 := by
  refine ⟨?_, ?_, ?_, ?_, by decide⟩
  · intro d a b c e ha hb hc he
    have haM := (digit_ne 'M' ha (by decide)).1
    have hbM := (digit_ne 'M' hb (by decide)).1
    have hcM := (digit_ne 'M' hc (by decide)).1
    have heM := (digit_ne 'M' he (by decide)).1
    have haS := (digit_ne '/' ha (by decide)).1
    have hbS := (digit_ne '/' hb (by decide)).1
    have hcS := (digit_ne '/' hc (by decide)).1
    have heS := (digit_ne '/' he (by decide)).1
    have hchars : ∀ x ∈ [a, b, '/', c, e], x.isDigit = true ∨ x = 'M' ∨ x = '/' := by
      intro x hx
      simp only [List.mem_cons, List.not_mem_nil, or_false] at hx
      rcases hx with rfl | rfl | rfl | rfl | rfl
      · left; exact ha
      · left; exact hb
      · right; right; rfl
      · left; exact hc
      · left; exact he
    have h4 : endsSM [a, b, '/', c, e] = false := by
      simp [endsSM, listStartsWith, (digit_ne 'M' he (by decide)).2]
    have h5 := containsAnyWx_false_chars _ hchars
    have h6 : cloudGate [a, b, '/', c, e] = false :=
      cloudGate_false_chars _ _ (Or.inl ha)
    have h7 : matchTempTok [a, b, '/', c, e] = true := by
      simp [matchTempTok, chompMdd, ha, hb, hc, he, haM, hcM]
    have hss : splitSlash [a, b, '/', c, e] = [[a, b], [c, e]] := by
      simp [splitSlash, splitSlashAux, haS, hbS, hcS, heS]
    have hra : replaceMinus [a, b] = [a, b] := by simp [replaceMinus, haM, hbM]
    have hrb : replaceMinus [c, e] = [c, e] := by simp [replaceMinus, hcM, heM]
    have hpa : pyInt? [a, b] = some ((digitsVal [a, b] : Nat) : Int) :=
      pyInt_digits _ (by simp) (digits_mem_two a b ha hb)
    have hpb : pyInt? [c, e] = some ((digitsVal [c, e] : Nat) : Int) :=
      pyInt_digits _ (by simp) (digits_mem_two c e hc he)
    unfold decodeTok
    rw [if_neg (by simp [show matchTimeTok [a, b, '/', c, e] = false from rfl]),
      if_neg (by simp [show matchWindFixed [a, b, '/', c, e] = false from rfl,
        matchWindVRB_false_headNe a _ (digit_ne 'V' ha (by decide)).2]),
      if_neg (by simp [h4]), if_neg (by simp [h5]), if_neg (by simp [h6]), if_pos h7]
    simp only [hss, hra, hrb, hpa, hpb]
  · intro d a b c e ha hb hc he
    have haM := (digit_ne 'M' ha (by decide)).1
    have hbM := (digit_ne 'M' hb (by decide)).1
    have hcM := (digit_ne 'M' hc (by decide)).1
    have heM := (digit_ne 'M' he (by decide)).1
    have haS := (digit_ne '/' ha (by decide)).1
    have hbS := (digit_ne '/' hb (by decide)).1
    have hcS := (digit_ne '/' hc (by decide)).1
    have heS := (digit_ne '/' he (by decide)).1
    have hchars : ∀ x ∈ ['M', a, b, '/', c, e], x.isDigit = true ∨ x = 'M' ∨ x = '/' := by
      intro x hx
      simp only [List.mem_cons, List.not_mem_nil, or_false] at hx
      rcases hx with rfl | rfl | rfl | rfl | rfl | rfl
      · right; left; rfl
      · left; exact ha
      · left; exact hb
      · right; right; rfl
      · left; exact hc
      · left; exact he
    have h4 : endsSM ['M', a, b, '/', c, e] = false := by
      simp [endsSM, listStartsWith, (digit_ne 'M' he (by decide)).2]
    have h5 := containsAnyWx_false_chars _ hchars
    have h6 : cloudGate ['M', a, b, '/', c, e] = false :=
      cloudGate_false_chars _ _ (Or.inr rfl)
    have h7 : matchTempTok ['M', a, b, '/', c, e] = true := by
      simp [matchTempTok, chompMdd, ha, hb, hc, he, hcM]
    have hss : splitSlash ['M', a, b, '/', c, e] = [['M', a, b], [c, e]] := by
      simp [splitSlash, splitSlashAux, haS, hbS, hcS, heS]
    have hra : replaceMinus ['M', a, b] = ['-', a, b] := by simp [replaceMinus, haM, hbM]
    have hrb : replaceMinus [c, e] = [c, e] := by simp [replaceMinus, hcM, heM]
    have hpa : pyInt? ['-', a, b] = some (-((digitsVal [a, b] : Nat) : Int)) :=
      pyInt_neg_digits _ (by simp) (digits_mem_two a b ha hb)
    have hpb : pyInt? [c, e] = some ((digitsVal [c, e] : Nat) : Int) :=
      pyInt_digits _ (by simp) (digits_mem_two c e hc he)
    unfold decodeTok
    rw [if_neg (by simp [show matchTimeTok ['M', a, b, '/', c, e] = false from rfl]),
      if_neg (by simp [matchWindFixed_false_head ['M', a, b, '/', c, e] (by simp [headDigit]),
        matchWindVRB_false_headNe 'M' _ (by decide)]),
      if_neg (by simp [h4]), if_neg (by simp [h5]), if_neg (by simp [h6]), if_pos h7]
    simp only [hss, hra, hrb, hpa, hpb]
  · intro d a b c e ha hb hc he
    have haM := (digit_ne 'M' ha (by decide)).1
    have hbM := (digit_ne 'M' hb (by decide)).1
    have hcM := (digit_ne 'M' hc (by decide)).1
    have heM := (digit_ne 'M' he (by decide)).1
    have haS := (digit_ne '/' ha (by decide)).1
    have hbS := (digit_ne '/' hb (by decide)).1
    have hcS := (digit_ne '/' hc (by decide)).1
    have heS := (digit_ne '/' he (by decide)).1
    have hchars : ∀ x ∈ [a, b, '/', 'M', c, e], x.isDigit = true ∨ x = 'M' ∨ x = '/' := by
      intro x hx
      simp only [List.mem_cons, List.not_mem_nil, or_false] at hx
      rcases hx with rfl | rfl | rfl | rfl | rfl | rfl
      · left; exact ha
      · left; exact hb
      · right; right; rfl
      · right; left; rfl
      · left; exact hc
      · left; exact he
    have h4 : endsSM [a, b, '/', 'M', c, e] = false := by
      simp [endsSM, listStartsWith, (digit_ne 'M' he (by decide)).2]
    have h5 := containsAnyWx_false_chars _ hchars
    have h6 : cloudGate [a, b, '/', 'M', c, e] = false :=
      cloudGate_false_chars _ _ (Or.inl ha)
    have h7 : matchTempTok [a, b, '/', 'M', c, e] = true := by
      simp [matchTempTok, chompMdd, ha, hb, hc, he, haM]
    have hss : splitSlash [a, b, '/', 'M', c, e] = [[a, b], ['M', c, e]] := by
      simp [splitSlash, splitSlashAux, haS, hbS, hcS, heS]
    have hra : replaceMinus [a, b] = [a, b] := by simp [replaceMinus, haM, hbM]
    have hrb : replaceMinus ['M', c, e] = ['-', c, e] := by simp [replaceMinus, hcM, heM]
    have hpa : pyInt? [a, b] = some ((digitsVal [a, b] : Nat) : Int) :=
      pyInt_digits _ (by simp) (digits_mem_two a b ha hb)
    have hpb : pyInt? ['-', c, e] = some (-((digitsVal [c, e] : Nat) : Int)) :=
      pyInt_neg_digits _ (by simp) (digits_mem_two c e hc he)
    unfold decodeTok
    have h2w : matchWindFixed [a, b, '/', 'M', c, e] = false := by
      unfold matchWindFixed
      split <;> simp_all
    rw [if_neg (by simp [show matchTimeTok [a, b, '/', 'M', c, e] = false from rfl]),
      if_neg (by simp [h2w,
        matchWindVRB_false_headNe a _ (digit_ne 'V' ha (by decide)).2]),
      if_neg (by simp [h4]), if_neg (by simp [h5]), if_neg (by simp [h6]), if_pos h7]
    simp only [hss, hra, hrb, hpa, hpb]
  · intro d a b c e ha hb hc he
    have haM := (digit_ne 'M' ha (by decide)).1
    have hbM := (digit_ne 'M' hb (by decide)).1
    have hcM := (digit_ne 'M' hc (by decide)).1
    have heM := (digit_ne 'M' he (by decide)).1
    have haS := (digit_ne '/' ha (by decide)).1
    have hbS := (digit_ne '/' hb (by decide)).1
    have hcS := (digit_ne '/' hc (by decide)).1
    have heS := (digit_ne '/' he (by decide)).1
    have hchars : ∀ x ∈ ['M', a, b, '/', 'M', c, e],
        x.isDigit = true ∨ x = 'M' ∨ x = '/' := by
      intro x hx
      simp only [List.mem_cons, List.not_mem_nil, or_false] at hx
      rcases hx with rfl | rfl | rfl | rfl | rfl | rfl | rfl
      · right; left; rfl
      · left; exact ha
      · left; exact hb
      · right; right; rfl
      · right; left; rfl
      · left; exact hc
      · left; exact he
    have h1 : matchTimeTok ['M', a, b, '/', 'M', c, e] = false :=
      matchTimeTok_false_head _ (by simp [headDigit])
    have h2 : matchWindFixed ['M', a, b, '/', 'M', c, e] = false :=
      matchWindFixed_false_head _ (by simp [headDigit])
    have h3 : matchWindVRB ['M', a, b, '/', 'M', c, e] = false := by
      simp [matchWindVRB]
    have h4 : endsSM ['M', a, b, '/', 'M', c, e] = false := by
      simp [endsSM, listStartsWith, (digit_ne 'M' he (by decide)).2]
    have h5 := containsAnyWx_false_chars _ hchars
    have h6 : cloudGate ['M', a, b, '/', 'M', c, e] = false :=
      cloudGate_false_chars _ _ (Or.inr rfl)
    have h7 : matchTempTok ['M', a, b, '/', 'M', c, e] = true := by
      simp [matchTempTok, chompMdd, ha, hb, hc, he]
    have hss : splitSlash ['M', a, b, '/', 'M', c, e] = [['M', a, b], ['M', c, e]] := by
      simp [splitSlash, splitSlashAux, haS, hbS, hcS, heS]
    have hra : replaceMinus ['M', a, b] = ['-', a, b] := by simp [replaceMinus, haM, hbM]
    have hrb : replaceMinus ['M', c, e] = ['-', c, e] := by simp [replaceMinus, hcM, heM]
    have hpa : pyInt? ['-', a, b] = some (-((digitsVal [a, b] : Nat) : Int)) :=
      pyInt_neg_digits _ (by simp) (digits_mem_two a b ha hb)
    have hpb : pyInt? ['-', c, e] = some (-((digitsVal [c, e] : Nat) : Int)) :=
      pyInt_neg_digits _ (by simp) (digits_mem_two c e hc he)
    unfold decodeTok
    rw [if_neg (by simp [h1]), if_neg (by simp [h2, h3]), if_neg (by simp [h4]),
      if_neg (by simp [h5]), if_neg (by simp [h6]), if_pos h7]
    simp only [hss, hra, hrb, hpa, hpb]

theorem C7_temperature_w :
    decodeTok emptyDecoded ("M15/M20".toList) =
      .ok { emptyDecoded with temperature := "5°F (-15°C)",
                              dewpoint := "Dewpoint -4°F (-20°C)" } ∧
    decodeTok emptyDecoded ("22/16".toList) =
      .ok { emptyDecoded with temperature := "72°F (22°C)",
                              dewpoint := "Dewpoint 61°F (16°C)" } := by
  constructor
  · exact (C7_temperature.2.2.2.1 emptyDecoded '1' '5' '2' '0' (by decide) (by decide)
      (by decide) (by decide)).trans (by decide)
  · exact (C7_temperature.1 emptyDecoded '2' '2' '1' '6' (by decide) (by decide)
      (by decide) (by decide)).trans (by decide)

end MetarSpec
